import Mathlib

/-!
Verification development for the code-generation core of the `tracer`
repository (`gen/gen.go`): the recursive type-parameter model, the alias
assignment algorithm (`buildImportMap`), the type-resolution and
signature-emission functions (`resolveParam`, `generateMethodSig`), and the
text-accumulating builder (`WriteStruct`, `writeImports`, `WriteTo`).

Strings are Lean `String`s; the Go `map[string]string` import map is
embedded as an association list in insertion order (alias values are
computed from the map's size at insertion time, exactly as in the Go code;
the only iteration over the map, in `writeImports`, sorts its output, so
the association-list order carries no information the Go map does not).
-/

namespace Tracer

/-- The type-parameter model (`parse/types`): the seven variants recognised
by `gen.go`, plus `unknown`, which stands for any other implementation of
the `types.Param` interface (the `default` branch of the Go switches). -/
inductive Param : Type where
  | basic (typ : String) : Param
  | named (pkg typ : String) : Param
  | array (length : Nat) (typ : Param) : Param
  | slice (typ : Param) : Param
  | pointer (typ : Param) : Param
  | map (key elem : Param) : Param
  | iface (methods : List (String × List Param × List Param)) : Param
  | unknown (tag : String) : Param

/-- A method: name, parameter types, return types (`types.Method`). -/
abbrev Method : Type := String × List Param × List Param

/-- An interface declaration (`types.Interface`). -/
structure Interface : Type where
  name : String
  methods : List Method

/-- A struct attribute (`types.Attr`). -/
structure Attr : Type where
  name : String
  typ : Param

/-- A struct declaration (`types.Struct`). -/
structure Struct : Type where
  name : String
  attrs : List Attr

/-- The root input (`types.Package`). -/
structure Package : Type where
  name : String
  pkgPath : String
  interfaces : List Interface
  structs : List Struct

/-- The import map: package path to alias, in insertion order. -/
abbrev ImportMap : Type := List (String × String)

mutual

/-- Embeds `resolvePackages` (gen.go:199-219): the packages mentioned by one
type parameter, in encounter order, duplicates included. -/
def resolvePackages : Param → List String
  | .basic _ => []
  | .named pkg _ => if pkg = "" then [] else [pkg]
  | .array _ t => resolvePackages t
  | .slice t => resolvePackages t
  | .pointer t => resolvePackages t
  | .map k v => resolvePackages k ++ resolvePackages v
  | .iface ms => resolveMethodPackages ms
  | .unknown _ => []

/-- Embeds `resolveMethodPackages` (gen.go:186-197): packages of every method's
params then returns, methods in order. -/
def resolveMethodPackages : List Method → List String
  | [] => []
  | (_, ps, rs) :: ms =>
    paramsPackages ps ++ paramsPackages rs ++ resolveMethodPackages ms

/-- The two inner loops of `resolveMethodPackages`, one list at a time. -/
def paramsPackages : List Param → List String
  | [] => []
  | p :: ps => resolvePackages p ++ paramsPackages ps

end

/-- One step of the import-map construction (the body of the inner loop of
`buildImportMap`, gen.go:174-181): skip the target package's own path, skip
paths already present, otherwise append with alias `i<size>`. -/
def importStep (self : String) (m : ImportMap) (p : String) : ImportMap :=
  if p = self then m
  else if (m.lookup p).isSome then m
  else m ++ [(p, "i" ++ Nat.repr m.length)]

/-- Embeds `buildImportMap` (gen.go:171-184). -/
def buildImportMap (pkg : Package) : ImportMap :=
  pkg.interfaces.foldl
    (fun m i => (resolveMethodPackages i.methods).foldl (importStep pkg.pkgPath) m) []

/-- Embeds `generateMethodSig` (gen.go:130-157), producing its text: positional
parameter names `p0, p1, ...`; returns: none, bare single, or
parenthesised comma-joined list. -/
def generateMethodSig (implementor methodName : String)
    (params returns : List String) : String :=
  (if implementor = "" then "" else "(t " ++ implementor ++ ") ")
    ++ methodName ++ "("
    ++ String.intercalate ", "
        (params.enum.map (fun ip => "p" ++ Nat.repr ip.1 ++ " " ++ ip.2))
    ++ ")"
    ++ (if returns.length > 0 then " " else "")
    ++ (if returns.length > 1 then "(" else "")
    ++ String.intercalate ", " returns
    ++ (if returns.length > 1 then ")" else "")

/-- The three branches of the `InterfaceParam` case of `resolveParam`
(gen.go:103-124), applied to the already-resolved method signatures. -/
def renderInterface : List String → String
  | [] => "interface\x7b\x7d"
  | [sig] => "interface\x7b " ++ sig ++ " \x7d"
  | s1 :: s2 :: rest => "interface \x7b"
      ++ String.join ((s1 :: s2 :: rest).map (fun s => "\n" ++ s)) ++ "\n\x7d,\n"

mutual

/-- Embeds `resolveParam` (gen.go:82-128): the textual form of a type parameter
under an import map. -/
def resolveParam (m : ImportMap) : Param → String
  | .basic t => t
  | .named pkg t =>
    if pkg = "" then t
    else
      match m.lookup pkg with
      | some a => a ++ "." ++ t
      | none => t
  | .array n t => "[" ++ Nat.repr n ++ "]" ++ resolveParam m t
  | .slice t => "[]" ++ resolveParam m t
  | .pointer t => "*" ++ resolveParam m t
  | .map k v => "map[" ++ resolveParam m k ++ "]" ++ resolveParam m v
  | .iface ms => renderInterface (resolveMethodSigs m ms)
  | .unknown _ => "<unsupported>"

/-- Resolves each method of an inline interface to its signature text
(the per-method body of the `InterfaceParam` loops in gen.go:107-121). -/
def resolveMethodSigs (m : ImportMap) : List Method → List String
  | [] => []
  | (name, ps, rs) :: rest =>
    generateMethodSig "" name (resolveParamList m ps) (resolveParamList m rs)
      :: resolveMethodSigs m rest

/-- Embeds `resolveParams` (gen.go:74-80). -/
def resolveParamList (m : ImportMap) : List Param → List String
  | [] => []
  | p :: ps => resolveParam m p :: resolveParamList m ps

end

/-- The accumulating code builder (`builder`, gen.go:23-26): text buffer
plus the import map it was seeded with. -/
structure GoBuilder : Type where
  buf : String
  importMap : ImportMap

/-- Embeds `builder.Write` (gen.go:70-72); format substitution is modelled by the
caller concatenating the substituted text. -/
def bWrite (b : GoBuilder) (s : String) : GoBuilder :=
  { b with buf := b.buf ++ s }

/-- Embeds `builder.WriteLine` (gen.go:66-68). -/
def bWriteLine (b : GoBuilder) (s : String) : GoBuilder :=
  bWrite b (s ++ "\n")

/-- One emitted import statement (gen.go:162), for the entry
`(path, alias)`. -/
def importLine (e : String × String) : String :=
  "import " ++ e.2 ++ " \"" ++ e.1 ++ "\""

/-- The import lines as `writeImports` (gen.go:159-169) emits them: one
per map entry, sorted by `sort.Strings`, i.e. lexicographically as whole
strings. (The Go map's iteration order is irrelevant: the sorted result
is the same for every ordering of the same entries.) -/
def sortedImportLines (m : ImportMap) : List String :=
  List.insertionSort (· ≤ ·) (m.map importLine)

/-- Embeds `builder.writeImports` (gen.go:159-169). -/
def writeImports (b : GoBuilder) : GoBuilder :=
  let imports := sortedImportLines b.importMap
  let b1 := bWrite b (String.intercalate "\n" imports)
  if imports.length > 0 then bWriteLine b1 "" else b1

/-- Embeds `NewBuilder` (gen.go:28-37). -/
def NewBuilder (pkg : Package) : GoBuilder :=
  let b : GoBuilder := { buf := "", importMap := buildImportMap pkg }
  let b1 := bWriteLine b "// Code generated by tracer v0.0.1. DO NOT EDIT."
  let b2 := bWriteLine b1 ("package " ++ pkg.name)
  writeImports b2

/-- Embeds `builder.WriteStruct` (gen.go:47-53). -/
def WriteStruct (b : GoBuilder) (s : Struct) : GoBuilder :=
  let b1 := bWriteLine b ("\ntype " ++ s.name ++ " struct \x7b")
  let b2 := s.attrs.foldl
    (fun acc a => bWriteLine acc (a.name ++ " " ++ resolveParam acc.importMap a.typ)) b1
  bWriteLine b2 "\x7d"

/-- Embeds `builder.WriteMethod` (gen.go:55-64). -/
def WriteMethod (b : GoBuilder) (strct : Option Struct) (m : Method)
    (callback : GoBuilder → GoBuilder) : GoBuilder :=
  let b1 := bWrite b "\nfunc "
  let b2 := match strct with
    | some s => bWrite b1 ("(t " ++ s.name ++ ") ")
    | none => b1
  let b3 := bWrite b2
    (generateMethodSig "" m.1 (resolveParamList b.importMap m.2.1)
      (resolveParamList b.importMap m.2.2))
  let b4 := bWriteLine b3 " \x7b"
  bWriteLine (callback b4) "\x7d"

/-- Embeds `builder.WriteTo` (gen.go:39-45), parametrised by the external
formatter `go/format.Source` (`none` = format error). Returns the Go
return value (`none` = error, `some n` = byte count) paired with the list
of chunks written to the destination writer. -/
def WriteTo (fmtSource : String → Option String) (b : GoBuilder) :
    Option Nat × List String :=
  match fmtSource b.buf with
  | none => (none, [])
  | some formatted => (some formatted.length, [formatted])

/-! Specification-side definitions, written from the spec's words, to be
compared with the code-side `buildImportMap`. -/

/-- Modelled from the spec (§4.2, step 1): the packages collected by the
fixed traversal, interfaces in order, including duplicates. -/
def collectPackages (pkg : Package) : List String :=
  (pkg.interfaces.map (fun i => resolveMethodPackages i.methods)).flatten

/-- Modelled from the spec (§4.2, step 3): one step of first-seen-order
deduplication. -/
def specStep (acc : List String) (p : String) : List String :=
  if p ∈ acc then acc else acc ++ [p]

/-- Modelled from the spec (§4.2, step 3): deduplicate preserving
first-seen order. -/
def firstSeenDedup (l : List String) : List String :=
  l.foldl specStep []

/-- Modelled from the spec (§4.2, step 3): assign aliases `i<k>`,
`i<k+1>`, ... to the given paths in order. -/
def aliasesFrom (k : Nat) : List String → ImportMap
  | [] => []
  | p :: ps => (p, "i" ++ Nat.repr k) :: aliasesFrom (k + 1) ps

/-- Modelled from the spec (§4.2): the import map the spec describes —
collect in traversal order, drop the target's own path, deduplicate
keeping first occurrences, alias `i0, i1, ...` in that order. -/
def specImportMap (pkg : Package) : ImportMap :=
  aliasesFrom 0 (firstSeenDedup ((collectPackages pkg).filter (fun p => p ≠ pkg.pkgPath)))

/-- The part of a generated signature before any return clause: optional
receiver, method name, positional parameters in parentheses
(gen.go:130-141). -/
def sigBase (implementor methodName : String) (params : List String) : String :=
  (if implementor = "" then "" else "(t " ++ implementor ++ ") ")
    ++ methodName ++ "("
    ++ String.intercalate ", "
        (params.enum.map (fun ip => "p" ++ Nat.repr ip.1 ++ " " ++ ip.2))
    ++ ")"

/-- Decimal value of a digit character, for reading back the digit strings
`Nat.repr` produces. -/
def digitVal (c : Char) : Nat := c.toNat - 48

/-- The number denoted by a digit string (most significant digit first). -/
def valOfDigits (l : List Char) : Nat :=
  l.foldl (fun acc c => 10 * acc + digitVal c) 0

/-- Example package: one interface whose single method mentions the
foreign packages `zzz` then `aaa`, in that discovery order. -/
def cxPkg : Package :=
  { name := "t", pkgPath := "tpath",
    interfaces := [⟨"I", [("M", [.named "zzz" "A", .named "aaa" "B"], [])]⟩],
    structs := [] }

/-- Example package whose own name `i0` is exactly the first alias the
generator hands out. -/
def namePkg : Package :=
  { name := "i0", pkgPath := "tpath",
    interfaces := [⟨"I", [("M", [.named "ext" "T"], [])]⟩],
    structs := [] }

/-- An example formatter for `WriteTo`: rejects the buffer `"bad"`,
reformats anything else by appending `"!"`. -/
def fmtOk : String → Option String :=
  fun s => if s = "bad" then none else some (s ++ "!")

end Tracer

namespace Tracer

/-! General lemmas. -/

theorem valOfDigits_append_singleton (xs : List Char) (c : Char) :
    valOfDigits (xs ++ [c]) = 10 * valOfDigits xs + digitVal c := by
  simp [valOfDigits, List.foldl_append]

theorem digitVal_digitChar (d : Nat) (h : d < 10) :
    digitVal (Nat.digitChar d) = d := by
  interval_cases d <;> decide

theorem toDigitsCore_acc (fuel : Nat) :
    ∀ (n : Nat) (ds : List Char),
      Nat.toDigitsCore 10 fuel n ds = Nat.toDigitsCore 10 fuel n [] ++ ds := by
  induction fuel with
  | zero => intro n ds; simp [Nat.toDigitsCore]
  | succ f ih =>
    intro n ds
    simp only [Nat.toDigitsCore]
    by_cases h : n / 10 = 0
    · simp [h]
    · simp only [h, if_false]
      rw [ih (n / 10) (Nat.digitChar (n % 10) :: ds),
        ih (n / 10) [Nat.digitChar (n % 10)]]
      simp

theorem valOfDigits_toDigitsCore (fuel : Nat) :
    ∀ n : Nat, n < fuel → valOfDigits (Nat.toDigitsCore 10 fuel n []) = n := by
  induction fuel with
  | zero => intro n h; omega
  | succ f ih =>
    intro n h
    simp only [Nat.toDigitsCore]
    by_cases h0 : n / 10 = 0
    · simp only [h0, if_true]
      have hn : n < 10 := by omega
      simp [valOfDigits, digitVal_digitChar (n % 10) (by omega)]
      omega
    · simp only [h0, if_false]
      rw [toDigitsCore_acc, valOfDigits_append_singleton]
      rw [ih (n / 10) (by omega)]
      rw [digitVal_digitChar (n % 10) (by omega)]
      omega

theorem repr_inj {m n : Nat} (h : Nat.repr m = Nat.repr n) : m = n := by
  have hd : Nat.toDigits 10 m = Nat.toDigits 10 n := by
    have := congrArg String.data h
    simpa [Nat.repr, List.asString] using this
  have hm := valOfDigits_toDigitsCore (m + 1) m (Nat.lt_succ_self m)
  have hn := valOfDigits_toDigitsCore (n + 1) n (Nat.lt_succ_self n)
  unfold Nat.toDigits at hd
  rw [hd] at hm
  rw [hm] at hn
  omega

theorem i_alias_inj {a b : Nat}
    (h : "i" ++ Nat.repr a = "i" ++ Nat.repr b) : a = b := by
  apply repr_inj
  have := congrArg String.data h
  simp [String.data_append] at this
  exact String.ext this

theorem ne_i_repr_of_head (s : String) (h : s.data.head? ≠ some 'i') (k : Nat) :
    s ≠ "i" ++ Nat.repr k := by
  intro hs
  apply h
  rw [hs]
  rfl

/-! Lemmas about the import map. -/

theorem lookup_aliasesFrom (p : String) :
    ∀ (ds : List String) (k : Nat),
      ((aliasesFrom k ds).lookup p).isSome = true ↔ p ∈ ds := by
  intro ds
  induction ds with
  | nil => intro k; simp [aliasesFrom]
  | cons d ds ih =>
    intro k
    by_cases h : p = d
    · subst h; simp [aliasesFrom, List.lookup]
    · simp only [aliasesFrom, List.lookup, List.mem_cons]
      rw [show (p == d) = false from beq_eq_false_iff_ne.mpr h]
      simp [ih (k + 1), h]

theorem length_aliasesFrom : ∀ (ds : List String) (k : Nat),
    (aliasesFrom k ds).length = ds.length := by
  intro ds
  induction ds with
  | nil => intro k; simp [aliasesFrom]
  | cons d ds ih => intro k; simp [aliasesFrom, ih (k + 1)]

theorem aliasesFrom_append : ∀ (ds : List String) (k : Nat) (p : String),
    aliasesFrom k (ds ++ [p])
      = aliasesFrom k ds ++ [(p, "i" ++ Nat.repr (k + ds.length))] := by
  intro ds
  induction ds with
  | nil => intro k p; simp [aliasesFrom]
  | cons d ds ih =>
    intro k p
    show (d, "i" ++ Nat.repr k) :: aliasesFrom (k + 1) (ds ++ [p]) = _
    rw [ih (k + 1) p]
    have h2 : k + 1 + ds.length = k + (d :: ds).length := by
      simp only [List.length_cons]; omega
    rw [h2]
    rfl

theorem importStep_aliases (self p : String) (ds : List String) :
    importStep self (aliasesFrom 0 ds) p
      = aliasesFrom 0 (if p = self then ds else specStep ds p) := by
  by_cases hs : p = self
  · simp [importStep, hs]
  · simp only [importStep, hs, if_false, specStep]
    by_cases hm : p ∈ ds
    · rw [if_pos ((lookup_aliasesFrom p ds 0).mpr hm)]
      simp [hm]
    · rw [if_neg (by simp [lookup_aliasesFrom p ds 0, hm])]
      simp only [hm, if_false]
      rw [aliasesFrom_append ds 0 p, length_aliasesFrom]
      simp

theorem foldl_importStep (self : String) :
    ∀ (ps : List String) (ds : List String),
      ps.foldl (importStep self) (aliasesFrom 0 ds)
        = aliasesFrom 0 (((ps.filter (fun p => p ≠ self)).foldl specStep ds)) := by
  intro ps
  induction ps with
  | nil => intro ds; simp
  | cons p ps ih =>
    intro ds
    by_cases hs : p = self
    · simp only [List.foldl_cons, importStep_aliases, hs, if_true]
      rw [ih ds]
      congr 1
      simp [List.filter, hs]
    · simp only [List.foldl_cons, importStep_aliases, hs, if_false]
      rw [ih (specStep ds p)]
      congr 1
      simp only [List.filter]
      rw [show (decide ¬ p = self) = true by simp [hs]]
      simp

theorem buildImportMap_eq_spec (pkg : Package) :
    buildImportMap pkg = specImportMap pkg := by
  show pkg.interfaces.foldl _ (aliasesFrom 0 []) = _
  unfold specImportMap firstSeenDedup collectPackages
  generalize pkg.interfaces = ints
  induction ints using List.reverseRecOn with
  | nil => simp [aliasesFrom]
  | append_singleton ints i ih =>
    rw [List.foldl_append, ih]
    simp only [List.foldl_cons, List.foldl_nil]
    rw [foldl_importStep]
    congr 1
    simp only [List.map_append, List.map_cons, List.map_nil, List.flatten_append,
      List.flatten_cons, List.flatten_nil, List.append_nil, List.filter_append,
      List.foldl_append]

theorem mem_aliasesFrom :
    ∀ (ds : List String) (k : Nat) (pr : String × String), pr ∈ aliasesFrom k ds →
      pr.1 ∈ ds ∧ ∃ j, k ≤ j ∧ j < k + ds.length ∧ pr.2 = "i" ++ Nat.repr j := by
  intro ds
  induction ds with
  | nil => intro k pr h; simp [aliasesFrom] at h
  | cons d ds ih =>
    intro k pr h
    simp only [aliasesFrom, List.mem_cons] at h
    rcases h with h | h
    · subst h
      refine ⟨by simp, k, le_refl k, by simp only [List.length_cons]; omega, rfl⟩
    · obtain ⟨h1, j, hj1, hj2, hj3⟩ := ih (k + 1) pr h
      exact ⟨by simp [h1], j, by omega, by simp only [List.length_cons]; omega, hj3⟩

theorem aliases_pairwise : ∀ (ds : List String) (k : Nat),
    ((aliasesFrom k ds).map Prod.snd).Pairwise (fun a b => a ≠ b) := by
  intro ds
  induction ds with
  | nil => intro k; simp [aliasesFrom]
  | cons d ds ih =>
    intro k
    simp only [aliasesFrom, List.map_cons, List.pairwise_cons]
    refine ⟨?_, ih (k + 1)⟩
    intro x hx heq
    obtain ⟨pr, hpr, hsnd⟩ := List.mem_map.mp hx
    obtain ⟨-, j, hj1, -, hj3⟩ := mem_aliasesFrom ds (k + 1) pr hpr
    rw [← hsnd, hj3] at heq
    have := i_alias_inj heq
    omega

theorem mem_foldl_specStep :
    ∀ (l acc : List String) (x : String),
      x ∈ l.foldl specStep acc → x ∈ acc ∨ x ∈ l := by
  intro l
  induction l with
  | nil => intro acc x h; simp at h; exact Or.inl h
  | cons p ps ih =>
    intro acc x h
    rcases ih (specStep acc p) x h with h1 | h1
    · unfold specStep at h1
      split at h1
      · exact Or.inl h1
      · simp only [List.mem_append, List.mem_singleton] at h1
        rcases h1 with h1 | h1
        · exact Or.inl h1
        · exact Or.inr (by simp [h1])
    · exact Or.inr (by simp [h1])

theorem mem_of_lookup_buildImportMap (pkg : Package) (p a : String)
    (h : (buildImportMap pkg).lookup p = some a) :
    p ∈ collectPackages pkg ∧ p ≠ pkg.pkgPath := by
  rw [buildImportMap_eq_spec] at h
  unfold specImportMap at h
  have hs : (((aliasesFrom 0 (firstSeenDedup
      ((collectPackages pkg).filter (fun q => q ≠ pkg.pkgPath)))).lookup p)).isSome = true := by
    rw [h]; rfl
  have hmem := (lookup_aliasesFrom p _ 0).mp hs
  have h2 := mem_foldl_specStep _ [] p hmem
  simp only [List.not_mem_nil, false_or] at h2
  have h3 := List.of_mem_filter h2
  exact ⟨List.mem_of_mem_filter h2, by simpa using h3⟩

theorem lookup_buildImportMap_self (pkg : Package) :
    (buildImportMap pkg).lookup pkg.pkgPath = none := by
  cases hl : (buildImportMap pkg).lookup pkg.pkgPath with
  | none => rfl
  | some a =>
    exact absurd rfl (mem_of_lookup_buildImportMap pkg pkg.pkgPath a hl).2

end Tracer

namespace Tracer

/-! Lemmas about signature and interface rendering. -/

theorem resolveMethodSigs_eq_map (m : ImportMap) :
    ∀ ms : List Method, resolveMethodSigs m ms
      = ms.map (fun mm =>
          generateMethodSig "" mm.1 (resolveParamList m mm.2.1) (resolveParamList m mm.2.2)) := by
  intro ms
  induction ms with
  | nil => rfl
  | cons mm rest ih =>
    obtain ⟨n, ps, rs⟩ := mm
    simp [resolveMethodSigs, ih]

theorem foldl_string_append_acc :
    ∀ (l : List String) (acc : String),
      l.foldl (fun a b => a ++ b) acc = acc ++ l.foldl (fun a b => a ++ b) "" := by
  intro l
  induction l with
  | nil => intro acc; simp
  | cons x xs ih =>
    intro acc
    simp only [List.foldl_cons]
    rw [ih (acc ++ x), ih ("" ++ x)]
    simp [String.append_assoc]

theorem join_cons (x : String) (l : List String) :
    String.join (x :: l) = x ++ String.join l := by
  simp only [String.join, List.foldl_cons]
  rw [foldl_string_append_acc l ("" ++ x)]
  simp

/-! Lemmas about the builder. -/

theorem writeStruct_fold (attrs : List Attr) :
    ∀ b : GoBuilder,
      ((attrs.foldl (fun acc a =>
          bWriteLine acc (a.name ++ " " ++ resolveParam acc.importMap a.typ)) b).buf
        = b.buf ++ String.join (attrs.map (fun a =>
            a.name ++ " " ++ resolveParam b.importMap a.typ ++ "\n")))
      ∧ (attrs.foldl (fun acc a =>
          bWriteLine acc (a.name ++ " " ++ resolveParam acc.importMap a.typ)) b).importMap
        = b.importMap := by
  induction attrs with
  | nil => intro b; simp [String.join]
  | cons a as ih =>
    intro b
    simp only [List.foldl_cons, List.map_cons, join_cons]
    have hb : (bWriteLine b (a.name ++ " " ++ resolveParam b.importMap a.typ)).importMap
        = b.importMap := rfl
    obtain ⟨ih1, ih2⟩ := ih (bWriteLine b (a.name ++ " " ++ resolveParam b.importMap a.typ))
    constructor
    · rw [ih1]
      simp [bWriteLine, bWrite, String.append_assoc]
    · exact ih2.trans hb

/-! Every package path the traversal collects is nonempty. -/

theorem resolveMethodPackages_ne_empty :
    ∀ (ms : List Method) (q : String), q ∈ resolveMethodPackages ms → q ≠ "" := by
  refine resolveMethodPackages.induct
    (fun p => ∀ q ∈ resolvePackages p, q ≠ "")
    (fun ms => ∀ q ∈ resolveMethodPackages ms, q ≠ "")
    (fun ps => ∀ q ∈ paramsPackages ps, q ≠ "")
    ?_ ?_ ?_ ?_ ?_ ?_ ?_ ?_ ?_ ?_ ?_ ?_ ?_
  · intro t q h; simp [resolvePackages] at h
  · intro t q h; simp [resolvePackages] at h
  · intro pkg t hp q h
    simp only [resolvePackages, hp, if_false, List.mem_singleton] at h
    subst h; exact hp
  · intro n t ih q h; exact ih q h
  · intro t ih q h; exact ih q h
  · intro t ih q h; exact ih q h
  · intro k v ihk ihv q h
    simp only [resolvePackages, List.mem_append] at h
    rcases h with h | h
    · exact ihk q h
    · exact ihv q h
  · intro ms ih q h; exact ih q h
  · intro t q h; simp [resolvePackages] at h
  · intro q h; simp [resolveMethodPackages] at h
  · intro n ps rs ms ihp ihr ihm q h
    simp only [resolveMethodPackages, List.mem_append] at h
    rcases h with (h | h) | h
    · exact ihp q h
    · exact ihr q h
    · exact ihm q h
  · intro q h; simp [paramsPackages] at h
  · intro p ps ihp ihs q h
    simp only [paramsPackages, List.mem_append] at h
    rcases h with h | h
    · exact ihp q h
    · exact ihs q h

theorem collectPackages_ne_empty (pkg : Package) :
    ∀ q ∈ collectPackages pkg, q ≠ "" := by
  intro q hq
  unfold collectPackages at hq
  obtain ⟨l, hl, hql⟩ := List.mem_flatten.mp hq
  obtain ⟨i, -, hli⟩ := List.mem_map.mp hl
  exact resolveMethodPackages_ne_empty i.methods q (hli ▸ hql)

end Tracer

namespace Tracer

/-! The claims. -/

/-- Claim C1 (counterexample): the emitted import lines are NOT sorted by
package path. For `cxPkg` (paths discovered in order `zzz`, `aaa`) the
emitted order is `zzz` before `aaa`, yet `aaa < zzz` lexicographically:
`sort.Strings` sorts the whole line `import <alias> "<path>"`, whose
alias part dominates. -/
theorem importLines_not_path_sorted_cx :
    buildImportMap cxPkg = [("zzz", "i0"), ("aaa", "i1")] ∧
    sortedImportLines (buildImportMap cxPkg)
      = ["import i0 \"zzz\"", "import i1 \"aaa\""] ∧
    ¬ ("zzz" ≤ "aaa") := by
  refine ⟨rfl, ?_, ?_⟩
  · have hle : ("import i0 \"zzz\"" : String) ≤ "import i1 \"aaa\"" := by
      rw [String.le_iff_toList_le]
      decide
    show List.insertionSort _ ["import i0 \"zzz\"", "import i1 \"aaa\""] = _
    simp [List.insertionSort, List.orderedInsert, hle]
  · rw [String.le_iff_toList_le]
    decide

/-- Claim C1 (amended): the emitted import statements, one per Import Map
entry, appear sorted lexicographically as whole line strings
`import <alias> "<path>"` (hence by alias, i.e. essentially discovery
order), not by package path. -/
theorem importLines_sorted_as_lines (m : ImportMap) :
    (sortedImportLines m).Sorted (fun a b => a ≤ b) ∧
    (sortedImportLines m).Perm (m.map importLine) :=
  ⟨List.sorted_insertionSort _ _, List.perm_insertionSort _ _⟩

/-- Claim C2 (counterexample): for a package whose own name is `i0`, the
single assigned alias equals the package's name — `buildImportMap` never
consults `pkg.Name`. -/
theorem alias_equals_package_name_cx :
    (buildImportMap namePkg).map Prod.snd = ["i0"] ∧ namePkg.name = "i0" :=
  ⟨rfl, rfl⟩

/-- Claim C2 (amended): aliases are always pairwise distinct; and provided
the target package's name is not itself of the alias shape
`"i" ++ Nat.repr k`, no assigned alias equals the target package's name. -/
theorem alias_uniqueness (pkg : Package)
    (hname : ∀ k : Nat, pkg.name ≠ "i" ++ Nat.repr k) :
    ((buildImportMap pkg).map Prod.snd).Pairwise (fun a b => a ≠ b) ∧
    ∀ e ∈ buildImportMap pkg, e.2 ≠ pkg.name := by
  rw [buildImportMap_eq_spec]
  unfold specImportMap
  constructor
  · exact aliases_pairwise _ 0
  · intro e he
    obtain ⟨-, j, -, -, hj⟩ := mem_aliasesFrom _ 0 e he
    rw [hj]
    exact fun h => hname j h.symm

/-- Claim C2 (witness): the amended theorem applied to `cxPkg`, whose name
`t` does not start with `i`. -/
theorem alias_uniqueness_witness :
    ((buildImportMap cxPkg).map Prod.snd).Pairwise (fun a b => a ≠ b) ∧
    ∀ e ∈ buildImportMap cxPkg, e.2 ≠ cxPkg.name :=
  alias_uniqueness cxPkg (fun k => ne_i_repr_of_head "t" (by decide) k)

/-- Claim C3 (counterexample): resolving a two-method interface parameter
does not end at the closing brace: the code emits a trailing comma and
newline (`\n},\n`) after it. -/
theorem iface_multiline_trailing_comma_cx :
    resolveParam [] (.iface [("A", [], []), ("B", [], [])])
        = "interface \x7b\nA()\nB()\n\x7d,\n" ∧
    resolveParam [] (.iface [("A", [], []), ("B", [], [])])
        ≠ "interface \x7b\nA()\nB()\n\x7d" :=
  ⟨rfl, by decide⟩

/-- Claim C3 (amended): an interface parameter with zero methods resolves
to the empty-interface literal; with one method to the single-line form
wrapping that method's signature; with two or more methods to the
multi-line form — opening line, one resolved method signature per line,
then a newline, the closing brace, a comma and a newline. -/
theorem iface_arity_rendering (m : ImportMap) (mth m1 m2 : Method) (rest : List Method) :
    resolveParam m (.iface []) = "interface\x7b\x7d" ∧
    resolveParam m (.iface [mth]) =
      "interface\x7b "
        ++ generateMethodSig "" mth.1 (resolveParamList m mth.2.1) (resolveParamList m mth.2.2)
        ++ " \x7d" ∧
    resolveParam m (.iface (m1 :: m2 :: rest)) =
      "interface \x7b"
        ++ String.join ((m1 :: m2 :: rest).map (fun mm =>
            "\n" ++ generateMethodSig "" mm.1 (resolveParamList m mm.2.1)
              (resolveParamList m mm.2.2)))
        ++ "\n\x7d,\n" := by
  refine ⟨rfl, ?_, ?_⟩
  · obtain ⟨n, ps, rs⟩ := mth
    simp [resolveParam, resolveMethodSigs, renderInterface]
  · obtain ⟨n1, ps1, rs1⟩ := m1
    obtain ⟨n2, ps2, rs2⟩ := m2
    simp [resolveParam, resolveMethodSigs_eq_map, renderInterface, resolveMethodSigs,
      Function.comp_def]

/-- Claim C4: building the Import Map is deterministic — it is a pure
function of the package, and it equals the spec's description: aliases
`i0, i1, ...` assigned to foreign package paths in first-discovery order
of the fixed traversal, duplicates and the target's own path skipped. -/
theorem buildImportMap_deterministic (pkg : Package) :
    buildImportMap pkg = buildImportMap pkg ∧ buildImportMap pkg = specImportMap pkg :=
  ⟨rfl, buildImportMap_eq_spec pkg⟩

/-- Claim C5: a Named parameter with nonempty package resolves to
`alias.Name` when the package is in the map and to the bare name when
absent; an empty package resolves bare; and over a builder's own map the
target package path always resolves bare, since map construction skips it. -/
theorem named_resolution (m : ImportMap) (pk : Package) (p t a : String) :
    (p ≠ "" → m.lookup p = some a → resolveParam m (.named p t) = a ++ "." ++ t) ∧
    (p ≠ "" → m.lookup p = none → resolveParam m (.named p t) = t) ∧
    resolveParam m (.named "" t) = t ∧
    resolveParam (buildImportMap pk) (.named pk.pkgPath t) = t := by
  refine ⟨?_, ?_, ?_, ?_⟩
  · intro hp hl; simp [resolveParam, hp, hl]
  · intro hp hl; simp [resolveParam, hp, hl]
  · simp [resolveParam]
  · by_cases hp : pk.pkgPath = ""
    · rw [hp]; simp [resolveParam]
    · simp [resolveParam, hp, lookup_buildImportMap_self pk]

/-- Claim C5 (witness): the theorem applied to the concrete map
`[("p", "i0")]` and the concrete package `cxPkg`. -/
theorem named_resolution_witness :
    resolveParam [("p", "i0")] (.named "p" "T") = "i0.T" ∧
    resolveParam [("p", "i0")] (.named "q" "T") = "T" ∧
    resolveParam [("p", "i0")] (.named "" "T") = "T" ∧
    resolveParam (buildImportMap cxPkg) (.named cxPkg.pkgPath "T") = "T" := by
  refine ⟨?_, ?_, ?_, ?_⟩
  · exact (named_resolution [("p", "i0")] cxPkg "p" "T" "i0").1 (by decide) rfl
  · exact (named_resolution [("p", "i0")] cxPkg "q" "T" "i0").2.1 (by decide) rfl
  · exact (named_resolution [("p", "i0")] cxPkg "" "T" "i0").2.2.1
  · exact (named_resolution [("p", "i0")] cxPkg "p" "T" "i0").2.2.2

/-- Claim C6: in every synthesized signature, zero returns emit no return
clause, one return emits the bare type after a space, and two or more
returns are comma-joined inside one pair of parentheses. -/
theorem methodSig_return_arity (implementor methodName : String)
    (params : List String) (r r1 r2 : String) (rs : List String) :
    generateMethodSig implementor methodName params []
        = sigBase implementor methodName params ∧
    generateMethodSig implementor methodName params [r]
        = sigBase implementor methodName params ++ " " ++ r ∧
    generateMethodSig implementor methodName params (r1 :: r2 :: rs)
        = sigBase implementor methodName params
            ++ " " ++ "(" ++ String.intercalate ", " (r1 :: r2 :: rs) ++ ")" := by
  unfold generateMethodSig sigBase
  refine ⟨?_, ?_, ?_⟩
  · simp [String.intercalate]
  · simp [String.intercalate, String.intercalate.go, String.append_assoc]
  · simp [String.append_assoc]

/-- Claim C7: resolving `Slice(Pointer(Named p T))` under the map
`p -> i0` yields exactly `[]*i0.T`. -/
theorem slice_pointer_named_roundtrip :
    resolveParam [("p", "i0")] (.slice (.pointer (.named "p" "T"))) = "[]*i0.T" := rfl

/-- Claim C8: any type parameter outside the seven recognised variants
resolves, without crashing, to the fixed sentinel text. -/
theorem unsupported_sentinel (m : ImportMap) (tag : String) :
    resolveParam m (.unknown tag) = "<unsupported>" := rfl

/-- Claim C9: `WriteTo` is atomic on error — if the formatter rejects the
buffer, it returns an error and writes nothing; if the formatter accepts,
it writes exactly the full reformatted text and returns its length. -/
theorem writeTo_atomic (fmtSource : String → Option String) (b : GoBuilder) :
    (fmtSource b.buf = none → WriteTo fmtSource b = (none, [])) ∧
    (∀ formatted, fmtSource b.buf = some formatted →
      WriteTo fmtSource b = (some formatted.length, [formatted])) := by
  constructor
  · intro h; simp [WriteTo, h]
  · intro f h; simp [WriteTo, h]

/-- Claim C9 (witness): the theorem applied to the formatter `fmtOk` on a
rejected buffer and on an accepted one. -/
theorem writeTo_atomic_witness :
    WriteTo fmtOk { buf := "bad", importMap := [] } = (none, []) ∧
    WriteTo fmtOk { buf := "ok", importMap := [] } = (some 3, ["ok!"]) := by
  constructor
  · exact (writeTo_atomic fmtOk { buf := "bad", importMap := [] }).1 rfl
  · exact (writeTo_atomic fmtOk { buf := "ok", importMap := [] }).2 "ok!" rfl

/-- Claim C10: `WriteStruct` renders every attribute with the same
`resolveParam` and the same Import Map as method parameters and returns:
an attribute whose Named package is in the builder's map is emitted
alias-qualified, one whose package is absent is emitted unqualified. -/
theorem writeStruct_resolution (pkg : Package) (s : Struct) :
    (WriteStruct (NewBuilder pkg) s).buf
      = (NewBuilder pkg).buf ++ "\ntype " ++ s.name ++ " struct \x7b\n"
        ++ String.join (s.attrs.map (fun a =>
            a.name ++ " " ++ resolveParam (buildImportMap pkg) a.typ ++ "\n"))
        ++ "\x7d\n" ∧
    (∀ p t a, (buildImportMap pkg).lookup p = some a →
      resolveParam (buildImportMap pkg) (.named p t) = a ++ "." ++ t) ∧
    (∀ p t, (buildImportMap pkg).lookup p = none →
      resolveParam (buildImportMap pkg) (.named p t) = t) := by
  refine ⟨?_, ?_, ?_⟩
  · have hmap : (NewBuilder pkg).importMap = buildImportMap pkg := by
      by_cases h : (sortedImportLines (buildImportMap pkg)).length > 0 <;>
        simp [NewBuilder, writeImports, bWriteLine, bWrite, h]
    unfold WriteStruct
    obtain ⟨h1, -⟩ := writeStruct_fold s.attrs
      (bWriteLine (NewBuilder pkg) ("\ntype " ++ s.name ++ " struct \x7b"))
    simp only [bWriteLine, bWrite, hmap] at h1
    simp only [bWriteLine, bWrite, h1, hmap]
    simp only [String.append_assoc]
    rw [show ∀ x : String, (" struct \x7b" : String) ++ ("\n" ++ x) = " struct \x7b\n" ++ x from
      fun x => by rw [← String.append_assoc]; rfl]
    rw [show ("\x7d" : String) ++ "\n" = "\x7d\n" from rfl]
  · intro p t a hl
    have hne : p ≠ "" := by
      have := (mem_of_lookup_buildImportMap pkg p a hl).1
      exact collectPackages_ne_empty pkg p this
    simp [resolveParam, hne, hl]
  · intro p t hl
    by_cases hp : p = ""
    · subst hp; simp [resolveParam]
    · simp [resolveParam, hp, hl]

/-- Claim C10 (witness): the theorem applied to `cxPkg` and a concrete
struct, a present package (`zzz`, alias `i0`) and an absent one. -/
theorem writeStruct_resolution_witness :
    resolveParam (buildImportMap cxPkg) (.named "zzz" "A") = "i0.A" ∧
    resolveParam (buildImportMap cxPkg) (.named "other" "B") = "B" := by
  constructor
  · exact (writeStruct_resolution cxPkg ⟨"S", []⟩).2.1 "zzz" "A" "i0" rfl
  · exact (writeStruct_resolution cxPkg ⟨"S", []⟩).2.2 "other" "B" rfl

end Tracer
